import Mathlib

set_option maxRecDepth 10000

/-!
Verification development for the Ada bot (event ingestion, deduplication,
rate limiting, memory scoring and the agentic response pipeline).

JavaScript strings are modelled as lists of characters (`Str`), machine
timestamps as `Int` (milliseconds since the epoch, as produced by
`Date.now()`), SQLite tables as Lean lists of row structures in rowid
order, and the JavaScript `Set` of processed DM ids as a duplicate-free
list in insertion order (the iteration order of a JS `Set`).

Fallible external calls are modelled by oracle parameters: the completion
service is a function from the request messages to an `AiMessage`, tool
execution is a function from a tool call to a result, and the single
storage failure a claim depends on (the `DELETE` issued by `clearContext`)
is a boolean in the environment.
-/

namespace Ada

/-- A JavaScript string, modelled as its list of characters. -/
abbrev Str := List Char

/-- Coerce a Lean string literal into the model type. -/
def str (s : String) : Str := s.data

/-- JS `String.prototype.toLowerCase`, restricted to the ASCII letters the
source vocabulary uses. -/
def jsToLower (s : Str) : Str := s.map Char.toLower

/-- Whitespace characters matched by the regex class `\s` in the source
patterns (the inputs under verification only use these). -/
def isWs (c : Char) : Bool := c == ' ' || c == '\t' || c == '\n' || c == '\r'

/-- JS `\w` word characters. -/
def isWordChar (c : Char) : Bool :=
  ('a' ≤ c && c ≤ 'z') || ('A' ≤ c && c ≤ 'Z') || ('0' ≤ c && c ≤ '9') || c == '_'

/-- `leadsWith needle hay` is true when `hay` starts with `needle`
(JS `String.prototype.startsWith`, and the `^pat` half of an anchored
regex alternation). -/
def leadsWith : Str → Str → Bool
  | [], _ => true
  | _ :: _, [] => false
  | a :: as, b :: bs => a == b && leadsWith as bs

/-- `endsWith hay needle` is true when `hay` ends with `needle`
(the `pat$` half of an anchored regex alternation). -/
def endsWith (hay needle : Str) : Bool := leadsWith needle.reverse hay.reverse

/-- JS `String.prototype.includes`: `needle` occurs contiguously in `hay`. -/
def strIncludes (hay needle : Str) : Bool :=
  match hay with
  | [] => leadsWith needle []
  | c :: t => leadsWith needle (c :: t) || strIncludes t needle

/-- JS `String.prototype.trim` (over the modelled whitespace set). -/
def trim (s : Str) : Str := ((s.dropWhile isWs).reverse.dropWhile isWs).reverse

/-- Replace every maximal whitespace run by the single character `rep`:
the effect of `.replace(/\s+/g, rep)` in the source. The boolean flag
records whether the previous character belonged to a whitespace run. -/
def collapseWsGo (rep : Char) : Str → Bool → Str
  | [], _ => []
  | c :: rest, inRun =>
    if isWs c then
      if inRun then collapseWsGo rep rest true
      else rep :: collapseWsGo rep rest true
    else c :: collapseWsGo rep rest false

/-- `.replace(/\s+/g, rep)` on a whole string. -/
def collapseWs (rep : Char) (s : Str) : Str := collapseWsGo rep s false

/-! ### Memory keys and importance (memory-manager.js) -/

/-- Characters kept by `.replace(/[^a-z0-9\s]/g, '')` (applied after
lowercasing in `generateKey`). -/
def keepKeyChar (c : Char) : Bool :=
  ('a' ≤ c && c ≤ 'z') || ('0' ≤ c && c ≤ '9') || isWs c

/-- `MemoryManager.generateKey`: lowercase, strip characters outside
`[a-z0-9\s]`, replace whitespace runs by underscores, truncate to 50
characters. -/
def generateKey (content : Str) : Str :=
  (collapseWs '_' ((jsToLower content).filter keepKeyChar)).take 50

/-- `MemoryManager.importanceKeywords.high`. -/
def highKeywords : List Str :=
  [str "important", str "remember", str "never forget", str "always", str "love",
   str "hate", str "favorite", str "birthday", str "anniversary"]

/-- `MemoryManager.importanceKeywords.medium`. -/
def mediumKeywords : List Str :=
  [str "like", str "enjoy", str "prefer", str "usually", str "often",
   str "sometimes", str "work", str "live", str "family"]

/-- `MemoryManager.importanceKeywords.low`. -/
def lowKeywords : List Str :=
  [str "maybe", str "perhaps", str "might", str "could", str "sometimes"]

/-- One of the three `for`-loops of `calculateImportance`: scan a keyword
tier in order and report whether some keyword occurs in the lowered text
(each loop returns as soon as a keyword matches). -/
def tierHit (lowered : Str) : List Str → Bool
  | [] => false
  | kw :: rest => if strIncludes lowered kw then true else tierHit lowered rest

/-- `MemoryManager.calculateImportance`: keyword-tier lookup over the
lowercased content, returning 9 / 6 / 3 for the high / medium / low tier
and 5 by default. -/
def calculateImportance (content : Str) : Nat :=
  let lowerContent := jsToLower content
  if tierHit lowerContent highKeywords then 9
  else if tierHit lowerContent mediumKeywords then 6
  else if tierHit lowerContent lowKeywords then 3
  else 5

/-! ### The user_memories table (database-manager.js) -/

/-- A row of the `user_memories` table. -/
structure MemoryRow where
  userId : Str
  memoryKey : Str
  memoryValue : Str
  memoryType : Str
  importance : Nat
  createdAt : Int
  updatedAt : Int
deriving DecidableEq, Repr

/-- `DatabaseManager.storeMemory`: `INSERT OR REPLACE INTO user_memories`.
Under the `UNIQUE(user_id, memory_key)` constraint SQLite deletes any
conflicting row and inserts the new one (whose unspecified `created_at`
column takes its `CURRENT_TIMESTAMP` default). -/
def storeMemory (tbl : List MemoryRow) (userId memoryKey memoryValue memoryType : Str)
    (importance : Nat) (now : Int) : List MemoryRow :=
  (tbl.filter fun r => !(r.userId == userId && r.memoryKey == memoryKey)) ++
    [⟨userId, memoryKey, memoryValue, memoryType, importance, now, now⟩]

/-! ### Timestamp strings (SQLite CURRENT_TIMESTAMP vs Date.toISOString)

The `processed_at` column is filled by SQLite's `CURRENT_TIMESTAMP`,
which renders the UTC instant as `YYYY-MM-DD HH:MM:SS`; the sweep's
cutoff parameter is produced by JavaScript's `Date.prototype.toISOString`,
which renders as `YYYY-MM-DDTHH:MM:SS.mmmZ`. The `DELETE ... WHERE
processed_at < ?` comparison is SQLite's bytewise string comparison of
those two renderings (the DATETIME column's NUMERIC affinity leaves both
non-numeric strings as TEXT). Both renderings are modelled below over a
calendar view of the instant. -/

/-- The character of one decimal digit. -/
def decChar (d : Nat) : Char := Char.ofNat (48 + d)

/-- Two-digit zero-padded decimal rendering (of a value below 100). -/
def pad2 (n : Nat) : Str := [decChar (n / 10 % 10), decChar (n % 10)]

/-- Three-digit zero-padded decimal rendering (the milliseconds). -/
def pad3 (n : Nat) : Str :=
  [decChar (n / 100 % 10), decChar (n / 10 % 10), decChar (n % 10)]

/-- Four-digit zero-padded decimal rendering (the year). -/
def pad4 (n : Nat) : Str :=
  [decChar (n / 1000 % 10), decChar (n / 100 % 10), decChar (n / 10 % 10),
   decChar (n % 10)]

/-- A calendar timestamp (UTC), the form in which both renderers see an
instant. -/
structure DateTime where
  year : Nat
  month : Nat
  day : Nat
  hour : Nat
  minute : Nat
  second : Nat
  millis : Nat
deriving DecidableEq, Repr

/-- Chronological order of two calendar timestamps. -/
def chronLt (a b : DateTime) : Prop :=
  a.year < b.year ∨ (a.year = b.year ∧ (a.month < b.month ∨ (a.month = b.month ∧
    (a.day < b.day ∨ (a.day = b.day ∧ (a.hour < b.hour ∨ (a.hour = b.hour ∧
      (a.minute < b.minute ∨ (a.minute = b.minute ∧ (a.second < b.second ∨
        (a.second = b.second ∧ a.millis < b.millis)))))))))))

instance : DecidableRel chronLt := fun a b =>
  decidable_of_iff
    (a.year < b.year ∨ (a.year = b.year ∧ (a.month < b.month ∨ (a.month = b.month ∧
      (a.day < b.day ∨ (a.day = b.day ∧ (a.hour < b.hour ∨ (a.hour = b.hour ∧
        (a.minute < b.minute ∨ (a.minute = b.minute ∧ (a.second < b.second ∨
          (a.second = b.second ∧ a.millis < b.millis)))))))))))) Iff.rfl

/-- SQLite's BINARY collation: bytewise lexicographic string comparison. -/
def strLt : Str → Str → Bool
  | [], [] => false
  | [], _ :: _ => true
  | _ :: _, [] => false
  | a :: as, b :: bs => if a == b then strLt as bs else decide (a < b)

/-- The `CURRENT_TIMESTAMP` rendering `YYYY-MM-DD HH:MM:SS`. -/
def sqliteTimestamp (dt : DateTime) : Str :=
  pad4 dt.year ++ '-' :: (pad2 dt.month ++ '-' :: (pad2 dt.day ++ ' ' ::
    (pad2 dt.hour ++ ':' :: (pad2 dt.minute ++ ':' :: pad2 dt.second))))

/-- The `toISOString` rendering `YYYY-MM-DDTHH:MM:SS.mmmZ`. -/
def isoTimestamp (dt : DateTime) : Str :=
  pad4 dt.year ++ '-' :: (pad2 dt.month ++ '-' :: (pad2 dt.day ++ 'T' ::
    (pad2 dt.hour ++ ':' :: (pad2 dt.minute ++ ':' :: (pad2 dt.second ++ '.' ::
      (pad3 dt.millis ++ ['Z']))))))

/-! ### The processed_notifications table and its retention sweep -/

/-- A row of the `processed_notifications` table; `processedAt` is the
instant `CURRENT_TIMESTAMP` rendered at insertion. -/
structure NotificationRecord where
  notificationId : Str
  notificationType : Str
  userId : Str
  processedAt : DateTime
deriving DecidableEq, Repr

/-- `DatabaseManager.cleanupOldNotifications`: the source computes
`new Date(Date.now() - daysOld * 24*60*60*1000).toISOString()` — the ISO
rendering of the instant `daysOld` days before now, whose calendar form
enters here as `cutoffDate` — and runs `DELETE FROM
processed_notifications WHERE processed_at < ?` with it; the comparison
is the bytewise one of the stored `CURRENT_TIMESTAMP` string and the ISO
string, and the surviving rows keep their order. -/
def cleanupOldNotifications (tbl : List NotificationRecord) (cutoffDate : DateTime) :
    List NotificationRecord :=
  tbl.filter fun r => !(strLt (sqliteTimestamp r.processedAt) (isoTimestamp cutoffDate))

/-- `DatabaseManager.isNotificationProcessed`: a `SELECT` by
`notification_id` coerced to a boolean. -/
def isNotificationProcessed (tbl : List NotificationRecord) (notificationId : Str) : Bool :=
  tbl.any fun r => r.notificationId == notificationId

/-- `DatabaseManager.markNotificationAsProcessed`:
`INSERT OR IGNORE INTO processed_notifications` (the insert is dropped when
a row with the same `notification_id` already exists). -/
def markNotificationAsProcessed (tbl : List NotificationRecord)
    (notificationId notificationType userId : Str) (now : DateTime) :
    List NotificationRecord :=
  if tbl.any fun r => r.notificationId == notificationId then tbl
  else tbl ++ [⟨notificationId, notificationType, userId, now⟩]

/-! ### The message_limits table (DatabaseManager.checkMessageLimit) -/

/-- A row of the `message_limits` table (`message_count`, `reset_time`). -/
structure LimitRow where
  messageCount : Nat
  resetTime : Int
deriving DecidableEq, Repr

/-- The value returned by `checkMessageLimit`: `true` (allowed) or an
object carrying `limitReached: true` and the row's `reset_time`. -/
inductive LimitOutcome where
  | allowed
  | limitReached (resetAt : Int)
deriving DecidableEq, Repr

/-- One hour in milliseconds (`60 * 60 * 1000`). -/
def msPerHour : Int := 60 * 60 * 1000

/-- `DatabaseManager.checkMessageLimit` acting on the caller's
`message_limits` row. Plus users skip the check; otherwise: if the stored
`reset_time` is more than one hour old the count resets to 1 at `now`;
else a count below 15 is incremented and allowed; else the call reports
`limitReached` carrying the stored `reset_time`. A missing row is
initialised to count 1 at `now`. -/
def checkMessageLimit (row? : Option LimitRow) (now : Int) (isPlus : Bool) :
    LimitOutcome × Option LimitRow :=
  if isPlus then (.allowed, row?)
  else
    match row? with
    | some row =>
      if row.resetTime < now - msPerHour then (.allowed, some ⟨1, now⟩)
      else if row.messageCount < 15 then
        (.allowed, some ⟨row.messageCount + 1, row.resetTime⟩)
      else (.limitReached row.resetTime, some row)
    | none => (.allowed, some ⟨1, now⟩)

/-- A sequence of non-Plus `checkMessageLimit` calls at the given times,
threading the stored row. -/
def runLimitCalls (row? : Option LimitRow) : List Int → List LimitOutcome × Option LimitRow
  | [] => ([], row?)
  | t :: rest =>
    let step := checkMessageLimit row? t false
    let restRun := runLimitCalls step.2 rest
    (step.1 :: restRun.1, restRun.2)

/-! ### The WebSocket reconnect state machine (websocket-manager.js) -/

/-- The connection-manager state observed by the reconnect logic:
`isConnected`, the `reconnectAttempts` counter, and the number of
`setTimeout(connect, ...)` reconnects scheduled so far (an event log). -/
structure WSState where
  isConnected : Bool
  reconnectAttempts : Nat
  scheduledReconnects : Nat
deriving DecidableEq, Repr

/-- `WebSocketManager.attemptReconnect`: when the attempt counter has
reached `maxReconnectAttempts` it gives up (no schedule, no change);
otherwise it increments the counter and schedules one reconnect. -/
def attemptReconnect (maxReconnectAttempts : Nat) (s : WSState) : WSState :=
  if s.reconnectAttempts ≥ maxReconnectAttempts then s
  else { s with reconnectAttempts := s.reconnectAttempts + 1,
                scheduledReconnects := s.scheduledReconnects + 1 }

/-- The `open` handler: marks the connection up and resets
`reconnectAttempts` to 0. -/
def onOpen (s : WSState) : WSState :=
  { s with isConnected := true, reconnectAttempts := 0 }

/-- The `close` handler: marks the connection down and calls
`attemptReconnect`. -/
def onClose (maxReconnectAttempts : Nat) (s : WSState) : WSState :=
  attemptReconnect maxReconnectAttempts { s with isConnected := false }

/-- Constructor state: disconnected, zero attempts, nothing scheduled. -/
def initialWSState : WSState := ⟨false, 0, 0⟩

/-- `n` consecutive connection failures (each scheduled `connect` fails
again and fires the `close` handler). -/
def runCloses (maxReconnectAttempts : Nat) : Nat → WSState → WSState
  | 0, s => s
  | n + 1, s => runCloses maxReconnectAttempts n (onClose maxReconnectAttempts s)

/-! ### The in-memory processed DM id set (MessageHandler.handleDirectMessage) -/

/-- Platform message ids (opaque tokens). -/
abbrev MsgId := Nat

/-- `this.processedMessageIds.add(id)`: a JS `Set` keeps insertion order
and ignores re-insertion of a present element. -/
def addProcessedId (ids : List MsgId) (i : MsgId) : List MsgId :=
  if ids.contains i then ids else ids ++ [i]

/-- The cleanup step of `handleDirectMessage`: when the set holds more
than 1000 ids it is rebuilt from `Array.from(set).slice(-500)`, the 500
most recently inserted ids. -/
def pruneIds (ids : List MsgId) : List MsgId :=
  if ids.length > 1000 then ids.drop (ids.length - 500) else ids

/-- `MessageHandler.handleDirectMessage`, restricted to its dedup-set
effects: skip own messages, skip ids already in the set, otherwise record
the id, prune the set, and hand the message to `processMessage` (the
returned boolean; the `processMessage` effects themselves are modelled
separately for C1/C4). -/
def handleDirectMessage (botUserId : Str) (st : List MsgId) (senderId : Str)
    (msgId : MsgId) : List MsgId × Bool :=
  if senderId == botUserId then (st, false)
  else if st.contains msgId then (st, false)
  else (pruneIds (addProcessedId st msgId), true)

/-- The processed-id set produced by a whole trace of inbound DMs
(sender, message id), starting from the empty set of the constructor. -/
def runDMs (botUserId : Str) (msgs : List (Str × MsgId)) : List MsgId :=
  msgs.foldl (fun st m => (handleDirectMessage botUserId st m.1 m.2).1) []

/-! ### Memory relevance ranking (MemoryManager.getRelevantMemories) -/

/-- JS `String.prototype.split(/\s+/)`: split on maximal whitespace runs,
keeping the (possibly empty) fragments between them — a leading or
trailing run contributes an empty fragment, exactly as in JS. The
accumulator holds the current fragment reversed; the flag records whether
the previous character was whitespace. -/
def splitWsGo : Str → Str → Bool → List Str
  | [], acc, _ => [acc.reverse]
  | c :: rest, acc, inRun =>
    if isWs c then
      if inRun then splitWsGo rest acc true
      else acc.reverse :: splitWsGo rest [] true
    else splitWsGo rest (c :: acc) false

/-- `text.split(/\s+/)`. -/
def splitWs (s : Str) : List Str := splitWsGo s [] false

/-- The columns of a `user_memories` row read by the ranking code
(`memory_value`, `importance`, `updated_at`). -/
structure StoredMemory where
  memoryKey : Str
  memoryValue : Str
  importance : Nat
  updatedAt : Int
deriving DecidableEq, Repr

/-- The match test of `calculateRelevance`: a memory word counts when some
word of the message contains it or is contained in it. -/
def wordMatches (messageWords : List Str) (word : Str) : Bool :=
  messageWords.any fun mWord => strIncludes mWord word || strIncludes word mWord

/-- `MemoryManager.calculateRelevance`: the fraction of the memory's
(lowercased, whitespace-split) words in symmetric substring containment
with some word of the message. The JS floating-point quotient is modelled
as an exact rational. -/
def calculateRelevance (memoryValue message : Str) : ℚ :=
  let memoryWords := splitWs (jsToLower memoryValue)
  let messageWords := splitWs (jsToLower message)
  let matchCount := memoryWords.countP (fun w => wordMatches messageWords w)
  (matchCount : ℚ) / (memoryWords.length : ℚ)

/-- The `relevance_score` attached to each memory in
`getRelevantMemories`: `calculateRelevance(memory, message) * importance`. -/
def relevanceScore (message : Str) (m : StoredMemory) : ℚ :=
  calculateRelevance m.memoryValue message * (m.importance : ℚ)

/-- The order produced by `ORDER BY importance DESC, updated_at DESC` in
`DatabaseManager.getUserMemories`. -/
def byImportanceRecency (a b : StoredMemory) : Prop :=
  b.importance < a.importance ∨
    (b.importance = a.importance ∧ b.updatedAt ≤ a.updatedAt)

instance : DecidableRel byImportanceRecency := fun a b =>
  decidable_of_iff
    (b.importance < a.importance ∨
      (b.importance = a.importance ∧ b.updatedAt ≤ a.updatedAt)) Iff.rfl

instance : IsTotal StoredMemory byImportanceRecency := ⟨by
  intro a b
  unfold byImportanceRecency
  rcases Nat.lt_trichotomy b.importance a.importance with h | h | h
  · exact Or.inl (Or.inl h)
  · rcases Int.le_total b.updatedAt a.updatedAt with h2 | h2
    · exact Or.inl (Or.inr ⟨h, h2⟩)
    · exact Or.inr (Or.inr ⟨h.symm, h2⟩)
  · exact Or.inr (Or.inl h)⟩

instance : IsTrans StoredMemory byImportanceRecency := ⟨by
  intro a b c hab hbc
  unfold byImportanceRecency at *
  rcases hab with h1 | ⟨h1, h1u⟩ <;> rcases hbc with h2 | ⟨h2, h2u⟩
  · exact Or.inl (lt_trans h2 h1)
  · exact Or.inl (h2 ▸ h1)
  · exact Or.inl (h1 ▸ h2)
  · exact Or.inr ⟨h2.trans h1, le_trans h2u h1u⟩⟩

/-- The comparator `(a, b) => b.relevance_score - a.relevance_score`
passed to the (stable) JS `Array.prototype.sort`: `a` may stay before `b`
exactly when `b`'s score does not exceed `a`'s. -/
def byScoreDesc (message : Str) (a b : StoredMemory) : Prop :=
  relevanceScore message b ≤ relevanceScore message a

instance (message : Str) : DecidableRel (byScoreDesc message) := fun a b =>
  decidable_of_iff (relevanceScore message b ≤ relevanceScore message a) Iff.rfl

instance (message : Str) : IsTotal StoredMemory (byScoreDesc message) :=
  ⟨fun a b => le_total (relevanceScore message b) (relevanceScore message a)⟩

instance (message : Str) : IsTrans StoredMemory (byScoreDesc message) :=
  ⟨fun _ _ _ hab hbc => le_trans hbc hab⟩

/-- `DatabaseManager.getUserMemories`: the user's rows ordered by
importance (descending) then recency (descending), limited. The SQL sort
is modelled by the stable `insertionSort`. -/
def getUserMemories (tbl : List StoredMemory) (limit : Nat) : List StoredMemory :=
  (List.insertionSort byImportanceRecency tbl).take limit

/-- `MemoryManager.getRelevantMemories`: fetch (up to) the top-100
memories; an empty store yields `[]`; an empty current message falls back
to the importance/recency order; otherwise sort by descending
`relevance_score` with the stable JS sort and take `limit`. -/
def getRelevantMemories (tbl : List StoredMemory) (currentMessage : Str) (limit : Nat) :
    List StoredMemory :=
  if (getUserMemories tbl 100).isEmpty then []
  else if currentMessage.isEmpty then (getUserMemories tbl 100).take limit
  else
    (List.insertionSort (byScoreDesc currentMessage) (getUserMemories tbl 100)).take limit

/-- The spec's worked example, memory 1. -/
def memCoffee : StoredMemory := ⟨str "k1", str "loves coffee", 9, 100⟩

/-- The spec's worked example, memory 2. -/
def memParis : StoredMemory := ⟨str "k2", str "lives in Paris", 5, 200⟩

/-- The spec's worked example, current text. -/
def msgCoffee : Str := str "tell me about coffee"

/-- Tie-break counterexample: higher importance, lower word-overlap,
older. -/
def memAlphaBeta : StoredMemory := ⟨str "ka", str "alpha beta", 2, 10⟩

/-- Tie-break counterexample: lower importance, full word-overlap,
newer. -/
def memAlpha : StoredMemory := ⟨str "kb", str "alpha", 1, 20⟩

/-- Tie-break counterexample, current text. -/
def msgAlpha : Str := str "alpha"

/-! ### The agent loop (MessageHandler.generateAgentResponse) -/

/-- One entry of a `tool_calls` array. -/
structure ToolCall where
  callId : Str
  toolName : Str
  argumentsJson : Str
deriving DecidableEq, Repr

/-- A completion-service response message; an absent `tool_calls` field is
modelled as the empty list. -/
structure AiMessage where
  content : Str
  toolCalls : List ToolCall
deriving DecidableEq, Repr

/-- One entry of the result list built by `executeToolCalls`: the
`tool_call_id`, the `success` flag, and the JSON-stringified result or
error payload. -/
structure ToolResult where
  toolCallId : Str
  success : Bool
  payload : Str
deriving DecidableEq, Repr

/-- Role tags of the completion-service message protocol. -/
inductive ChatRole where
  | system
  | user
  | assistant
  | tool
deriving DecidableEq, Repr

/-- A message of the completion request (`role`, `content`, optional
`tool_calls`, optional `tool_call_id`). -/
structure ChatMessage where
  role : ChatRole
  content : Str
  toolCalls : List ToolCall
  toolCallId : Option Str
deriving DecidableEq, Repr

/-- The `{ role: 'user', content: text }` message. -/
def userMsg (text : Str) : ChatMessage := ⟨.user, text, [], none⟩

/-- The system message the completion client prepends to every request. -/
def systemMsg (systemPrompt : Str) : ChatMessage := ⟨.system, systemPrompt, [], none⟩

/-- `ToolManager.executeToolCalls`, with the execution of one tool
(`tool.execute`, succeeding or throwing — both caught and converted to a
result) abstracted as an oracle: each requested call is executed once, in
order, yielding one result per call tagged with its `tool_call_id`. -/
def executeToolCalls (exec : ToolCall → Bool × Str) (toolCalls : List ToolCall) :
    List ToolResult :=
  toolCalls.map fun tc => ⟨tc.callId, (exec tc).1, (exec tc).2⟩

/-- The observable outcome of one `generateAgentResponse` run: the
requests made to the completion service (in order), the tool calls
actually executed, and the reply text. -/
structure AgentRun where
  completionRequests : List (List ChatMessage)
  executedToolCalls : List ToolCall
  reply : Str
deriving Repr

/-- `MessageHandler.generateAgentResponse` with the completion service as
an oracle from the request messages to a response. The system prompt —
always non-empty at this call site (the configured prompt plus user
context) — is prepended to each request by the completion client. The
first request carries the tool catalog; when it returns tool calls they
are executed once, the assistant tool-call message and all tool results
are appended, and the service is invoked exactly once more (without
tools); the text of that second response is the reply whatever it
contains. The `catch` fallback path is unreachable here because the
source completion client and tool manager convert their own failures
into values. -/
def generateAgentResponse (complete : List ChatMessage → AiMessage)
    (exec : ToolCall → Bool × Str) (systemPrompt messageText : Str)
    (context : List ChatMessage) : AgentRun :=
  let firstMessages := systemMsg systemPrompt :: context ++ [userMsg messageText]
  let aiResponse := complete firstMessages
  if aiResponse.toolCalls.isEmpty then
    ⟨[firstMessages], [], aiResponse.content⟩
  else
    let toolResults := executeToolCalls exec aiResponse.toolCalls
    let toolMessages := systemMsg systemPrompt :: context ++ [userMsg messageText] ++
      [⟨.assistant, aiResponse.content, aiResponse.toolCalls, none⟩] ++
      toolResults.map (fun r => ⟨.tool, r.payload, [], some r.toolCallId⟩)
    let finalResponse := complete toolMessages
    ⟨[firstMessages, toolMessages], aiResponse.toolCalls, finalResponse.content⟩

/-! ### The message pipeline (MessageHandler.processMessage) -/

/-- A row of the `messages` table. -/
structure MessageRow where
  userId : Str
  role : Str
  content : Str
deriving DecidableEq, Repr

/-- Replies sent through the platform client, as tagged events (the long
literal texts of the source are summarized by their tag; the payloads a
claim depends on are carried explicitly). -/
inductive SentReply where
  | contextCleared
  | memoryStatus
  | memoryCleared
  | rememberAck (text : Str)
  | leaveGroupBye
  | helpMessage
  | limitNotice (resetAt : Int)
  | agentReply (text : Str)
deriving DecidableEq, Repr

/-- The fields of a note the pipeline reads. -/
structure Note where
  id : Str
  userId : Str
  text : Str
  channelId : Option Str
deriving DecidableEq, Repr

/-- The durable and observable state threaded through the pipeline: the
four tables of the shared SQLite store, the replies sent, and a counter
of completion-service invocations. -/
structure BotState where
  messages : List MessageRow
  limits : List (Str × LimitRow)
  notifications : List NotificationRecord
  memories : List MemoryRow
  sentReplies : List SentReply
  completionCalls : Nat
deriving DecidableEq, Repr

/-- Empty store, nothing sent. -/
def initialBotState : BotState := ⟨[], [], [], [], [], 0⟩

/-- `SELECT message_count, reset_time FROM message_limits WHERE userId = ?`. -/
def getLimitRow (limits : List (Str × LimitRow)) (u : Str) : Option LimitRow :=
  (limits.find? fun p => p.1 == u).map Prod.snd

/-- The `INSERT`/`UPDATE` on `message_limits` (one row per user). -/
def setLimitRow (limits : List (Str × LimitRow)) (u : Str) (row : LimitRow) :
    List (Str × LimitRow) :=
  if limits.any fun p => p.1 == u then
    limits.map fun p => if p.1 == u then (u, row) else p
  else limits ++ [(u, row)]

/-- `checkMessageLimit` acting on the whole store. -/
def checkMessageLimitDB (st : BotState) (u : Str) (now : Int) (isPlus : Bool) :
    LimitOutcome × BotState :=
  if isPlus then (.allowed, st)
  else
    match checkMessageLimit (getLimitRow st.limits u) now false with
    | (outcome, some row) => (outcome, { st with limits := setLimitRow st.limits u row })
    | (outcome, none) => (outcome, st)

/-- `DatabaseManager.clearContext`: `DELETE FROM messages WHERE userId = ?`. -/
def clearContext (msgs : List MessageRow) (u : Str) : List MessageRow :=
  msgs.filter fun r => !(r.userId == u)

/-- One candidate produced by `extractMemories` (key, value, type,
importance). -/
structure MemoryCandidate where
  key : Str
  value : Str
  memoryType : Str
  importance : Nat
deriving DecidableEq, Repr

/-- The pipeline environment: the user's Plus flag, the two failures the
claims depend on — whether the `clearContext` DELETE succeeds
(`clearOk`) and whether the subsequent send of the fixed context-cleared
reply succeeds (`sendOk`); both awaits sit inside the same `try` of the
`!cc` branch, whose `catch` returns false. Every other remote or storage
call is modelled as succeeding (no claim exercises those failure paths).
Then the `beforeResponse` plugin hook outcome, the completion and tool
oracles, the system prompt, and the regex extractor of `extractMemories`
as an oracle from the message text to its candidate list. -/
structure Env where
  isPlus : Bool
  clearOk : Bool
  sendOk : Bool
  pluginAutoResponse : Option Str
  complete : List ChatMessage → AiMessage
  exec : ToolCall → Bool × Str
  systemPrompt : Str
  extract : Str → List MemoryCandidate

/-- The regex `/^!cc|!clearcontext$/i` on the lowercased trimmed text:
the alternation anchors parse as `(^!cc)|(!clearcontext$)`. -/
def ccCommandMatches (lowerText : Str) : Bool :=
  leadsWith (str "!cc") lowerText || endsWith lowerText (str "!clearcontext")

/-- The regex `/^!memory|!mem$/i`. -/
def memoryCommandMatches (lowerText : Str) : Bool :=
  leadsWith (str "!memory") lowerText || endsWith lowerText (str "!mem")

/-- The regex `/^!clearmemory|!forgetme$/i`. -/
def clearMemoryCommandMatches (lowerText : Str) : Bool :=
  leadsWith (str "!clearmemory") lowerText || endsWith lowerText (str "!forgetme")

/-- The key `manual_TIMESTAMP` of a `!remember` memory. -/
def manualKey (now : Int) : Str := str "manual_" ++ Nat.toDigits 10 now.toNat

/-- The trailing branches of `handleSpecialCommands`: the leave-group
command (only in a channel; the goodbye or failure reply is one event)
and the help command. -/
def handleSpecialCommandsTail (st : BotState) (lowerText : Str) (note : Note) :
    Bool × BotState :=
  if (strIncludes lowerText (str "leave") && strIncludes lowerText (str "group"))
      && note.channelId.isSome then
    (true, { st with sentReplies := st.sentReplies ++ [.leaveGroupBye] })
  else if lowerText == str "help" || lowerText == str "!help" then
    (true, { st with sentReplies := st.sentReplies ++ [.helpMessage] })
  else (false, st)

/-- `MessageHandler.handleSpecialCommands`: the built-in command chain in
source order. The `!cc`/`!clearcontext` branch runs one `try` around two
awaits — the history DELETE, then the send of the fixed context-cleared
reply — and returns `true` only after both; the `catch` returns `false`,
so the message falls through to normal processing when the DELETE
rejects (state unchanged) and also when the reply send rejects after a
successful DELETE (history already cleared, no reply recorded). Memory
status / clear-memory / `!remember` / leave-group / help follow; an
unmatched text returns `false`. -/
def handleSpecialCommands (env : Env) (st : BotState) (text : Str) (note : Note)
    (now : Int) : Bool × BotState :=
  let lowerText := jsToLower (trim text)
  if ccCommandMatches lowerText then
    if env.clearOk then
      if env.sendOk then
        (true, { st with messages := clearContext st.messages note.userId,
                         sentReplies := st.sentReplies ++ [.contextCleared] })
      else
        (false, { st with messages := clearContext st.messages note.userId })
    else (false, st)
  else if memoryCommandMatches lowerText then
    (true, { st with sentReplies := st.sentReplies ++ [.memoryStatus] })
  else if clearMemoryCommandMatches lowerText then
    (true, { st with memories := st.memories.filter fun r => !(r.userId == note.userId),
                     sentReplies := st.sentReplies ++ [.memoryCleared] })
  else if leadsWith (str "!remember ") lowerText then
    let memoryText := trim (text.drop 10)
    if !memoryText.isEmpty then
      (true, { st with
          memories := storeMemory st.memories note.userId (manualKey now) memoryText
            (str "important") 8 now,
          sentReplies := st.sentReplies ++ [.rememberAck memoryText] })
    else handleSpecialCommandsTail st lowerText note
  else handleSpecialCommandsTail st lowerText note

/-- `role` strings of stored rows mapped back to protocol roles. -/
def roleOfStr (r : Str) : ChatRole := if r == str "assistant" then .assistant else .user

/-- `getConversationHistory` (with the empty default system prompt at
this call site): the user's rows in insertion (rowid) order. -/
def chatHistory (msgs : List MessageRow) (u : Str) : List ChatMessage :=
  (msgs.filter fun r => r.userId == u).map fun r => ⟨roleOfStr r.role, r.content, [], none⟩

/-- `MessageHandler.processMessage` from the point after mention
stripping (`messageText`), on the happy path plus the failure points the
claims depend on. In source order: special commands; rate check (with
the limit notice short-circuit); memory extraction and storage; storing
the user message; the `beforeResponse` hook (a triggered plugin
auto-response skips the completion service); the agent loop; sending the
reply; storing the assistant message. Note that no step reads or writes
the `processed_notifications` table — the source never calls
`isNotificationProcessed` / `markNotificationAsProcessed`. -/
def processMessage (env : Env) (st : BotState) (note : Note) (messageText : Str)
    (now : Int) : BotState :=
  let special := handleSpecialCommands env st messageText note now
  if special.1 then special.2
  else
    let st1 := special.2
    let rate := checkMessageLimitDB st1 note.userId now env.isPlus
    match rate.1 with
    | .limitReached resetAt =>
        { rate.2 with sentReplies := rate.2.sentReplies ++ [.limitNotice resetAt] }
    | .allowed =>
      let st2 := rate.2
      let newMemories := (env.extract messageText).foldl
        (fun tbl c => storeMemory tbl note.userId c.key c.value c.memoryType
          c.importance now)
        st2.memories
      let st3 := { st2 with memories := newMemories }
      let newMessages := st3.messages ++ [⟨note.userId, str "user", messageText⟩]
      let st4 := { st3 with messages := newMessages }
      let updatedHistory := chatHistory st4.messages note.userId
      match env.pluginAutoResponse with
      | some autoResponse =>
          { st4 with
              sentReplies := st4.sentReplies ++ [.agentReply autoResponse],
              messages := st4.messages ++ [⟨note.userId, str "assistant", autoResponse⟩] }
      | none =>
          let run := generateAgentResponse env.complete env.exec env.systemPrompt
            messageText updatedHistory
          { st4 with
              completionCalls := st4.completionCalls + run.completionRequests.length,
              sentReplies := st4.sentReplies ++ [.agentReply run.reply],
              messages := st4.messages ++ [⟨note.userId, str "assistant", run.reply⟩] }

/- In the mention-stripping of `removeMentionFromText` the two global
regex replaces are modelled by single-pass scanners with an explicit
run/skip state so that they stay structurally recursive. -/

/-- `.replace(/@\w+/g, '')`: drop each `@` that is followed by at least
one word character together with its maximal word-character run. The flag
records that we are inside a run being dropped. -/
def stripAtWordRunsGo : Str → Bool → Str
  | [], _ => []
  | c :: rest, inAt =>
    if inAt && isWordChar c then stripAtWordRunsGo rest true
    else if c == '@' && !(rest.takeWhile isWordChar).isEmpty then
      stripAtWordRunsGo rest true
    else c :: stripAtWordRunsGo rest false

/-- `.replace(/@\w+/g, '')` on a whole string. -/
def stripAtWordRuns (s : Str) : Str := stripAtWordRunsGo s false

/-- `.replace(new RegExp(`@username\b`, 'gi'), '')`: on an `@` followed
case-insensitively by the bot username at a word boundary, drop the `@`
and schedule `username.length` further characters to be dropped (the
`Nat` argument). -/
def stripBotMentionGo (username : Str) : Str → Nat → Str
  | [], _ => []
  | _ :: rest, skip + 1 => stripBotMentionGo username rest skip
  | c :: rest, 0 =>
    if c == '@' && jsToLower (rest.take username.length) == jsToLower username
        && decide (username.length ≤ rest.length)
        && ((rest.drop username.length).isEmpty
            || !isWordChar ((rest.drop username.length).headD ' ')) then
      stripBotMentionGo username rest username.length
    else c :: stripBotMentionGo username rest 0

/-- The first replace of `removeMentionFromText`. -/
def stripBotMention (username text : Str) : Str := stripBotMentionGo username text 0

/-- `MessageHandler.removeMentionFromText`: strip the bot mention, strip
all other `@word` mentions, collapse whitespace runs to single spaces,
trim. -/
def removeMentionFromText (botUsername text : Str) : Str :=
  trim (collapseWs ' ' (stripAtWordRuns (stripBotMention botUsername text)))

/-- `MessageHandler.handleMention`: forwards the notification note
directly into `processMessage` (as a mention, so the text is stripped
first). No deduplication of any kind happens before this call. -/
def handleMention (env : Env) (botUsername : Str) (st : BotState) (note : Note)
    (now : Int) : BotState :=
  processMessage env st note (removeMentionFromText botUsername note.text) now

/-- A plain environment for concrete runs: a non-Plus user, a working
store, no plugins, a completion service that answers with a fixed text
and no tool calls, and no extracted memories. -/
def plainEnv : Env :=
  { isPlus := false, clearOk := true, sendOk := true, pluginAutoResponse := none,
    complete := fun _ => ⟨str "hi there", []⟩,
    exec := fun _ => (true, str "ok"),
    systemPrompt := str "sys",
    extract := fun _ => [] }

/-- A mention note used for the duplicate-delivery run. -/
def mentionNote : Note := ⟨str "note1", str "userA", str "hello", some (str "chan1")⟩

end Ada

namespace Ada

/-! ### Theorems: importance scoring (C7) -/

/-- Each keyword loop in `calculateImportance` returns early on the first
match, which is exactly a `List.any` over that tier. -/
theorem tierHit_eq_any (lowered : Str) (kws : List Str) :
    tierHit lowered kws = kws.any (fun kw => strIncludes lowered kw) := by
  induction kws with
  | nil => rfl
  | cons kw rest ih => by_cases h : strIncludes lowered kw <;> simp [tierHit, h, ih]

/-- C7: importance is assigned by keyword-tier lookup over the lowercased
text: 9 when some high-salience cue occurs in it, otherwise 6 when some
medium-salience cue occurs, otherwise 3 when some low-salience hedging cue
occurs, otherwise the default 5. -/
theorem calculateImportance_keyword_tiers (content : Str) :
    calculateImportance content =
      if ∃ kw ∈ highKeywords, strIncludes (jsToLower content) kw = true then 9
      else if ∃ kw ∈ mediumKeywords, strIncludes (jsToLower content) kw = true then 6
      else if ∃ kw ∈ lowKeywords, strIncludes (jsToLower content) kw = true then 3
      else 5 := by
  simp only [calculateImportance, tierHit_eq_any, List.any_eq_true]

/-- Smoke test: tier membership on concrete texts (explicit cue, medium
cue, hedging cue, no cue, and a text hitting both a low and a high tier). -/
theorem calculateImportance_examples :
    calculateImportance (str "please remember to water the plant") = 9 ∧
    calculateImportance (str "i like tea") = 6 ∧
    calculateImportance (str "maybe tomorrow") = 3 ∧
    calculateImportance (str "good morning") = 5 ∧
    calculateImportance (str "maybe this is important") = 9 := by
  decide

/-! ### Theorems: memory upsert idempotence (C6) -/

/-- C6: the key of a preference / fact / interest extraction is computed
deterministically as `tag_generateKey(matchedText)`; storing the same key
twice leaves a single row for `(userId, key)` carrying the second value,
importance and update time, adds no row on the second store, and leaves
every row with a different `(userId, key)` untouched. -/
theorem storeMemory_upsert_idempotent (tbl : List MemoryRow) (u tag matched v1 v2 ty : Str)
    (i1 i2 : Nat) (t1 t2 : Int) :
    let k := tag ++ str "_" ++ generateKey matched
    let tbl1 := storeMemory tbl u k v1 ty i1 t1
    let tbl2 := storeMemory tbl1 u k v2 ty i2 t2
    tbl2.filter (fun r => r.userId == u && r.memoryKey == k) =
        [⟨u, k, v2, ty, i2, t2, t2⟩] ∧
    tbl2.length = tbl1.length ∧
    tbl2.filter (fun r => !(r.userId == u && r.memoryKey == k)) =
      tbl.filter (fun r => !(r.userId == u && r.memoryKey == k)) := by
  intro k tbl1 tbl2
  refine ⟨?_, ?_, ?_⟩ <;>
    simp [tbl2, tbl1, storeMemory, List.filter_append, List.filter_filter]

/-! ### Theorems: deduplicator retention sweep (C8)

The two renderings agree on their first ten bytes (the zero-padded date)
and then differ: the SQLite form continues with a space, the ISO form
with a `T`, and `' ' < 'T'`. The lemmas below reduce the bytewise
comparison of the two renderings to a comparison of calendar dates. -/

/-- Sanity: the SQLite rendering of a concrete instant. -/
theorem sqliteTimestamp_example :
    sqliteTimestamp ⟨2026, 10, 4, 18, 0, 0, 0⟩ = str "2026-10-04 18:00:00" := by decide

/-- Sanity: the ISO rendering of a concrete instant. -/
theorem isoTimestamp_example :
    isoTimestamp ⟨2026, 10, 4, 12, 0, 0, 0⟩ = str "2026-10-04T12:00:00.000Z" := by decide

/-- Digit characters decide equality like the digits. -/
theorem decChar_beq (a b : Nat) (ha : a < 10) (hb : b < 10) :
    (decChar a == decChar b) = decide (a = b) := by
  interval_cases a <;> interval_cases b <;> decide

/-- Digit characters order like the digits. -/
theorem decChar_lt (a b : Nat) (ha : a < 10) (hb : b < 10) :
    (decChar a < decChar b) ↔ a < b := by
  interval_cases a <;> interval_cases b <;> decide

/-- Bytewise comparison of strings with equal-length heads: decide on the
heads, fall through to the tails on equal heads. -/
theorem strLt_append_same_len (x : Str) :
    ∀ (y : Str) (a b : Str), x.length = y.length →
      strLt (x ++ a) (y ++ b) = (strLt x y || (x == y && strLt a b)) := by
  induction x with
  | nil =>
    intro y a b hlen
    cases y with
    | nil => simp [strLt]
    | cons c cs => simp at hlen
  | cons c cs ih =>
    intro y a b hlen
    cases y with
    | nil => simp at hlen
    | cons d ds =>
      simp only [List.cons_append, strLt, List.cons_beq_cons]
      by_cases h : (c == d) = true
      · simp only [h, if_true, Bool.true_and]
        simpa [List.append_eq] using ih ds a b (by simpa using hlen)
      · have h2 : (c == d) = false := by simpa using h
        simp [h2]

/-- Equal-width two-digit renderings decide equality like the numbers. -/
theorem pad2_beq (m n : Nat) (hm : m < 100) (hn : n < 100) :
    (pad2 m == pad2 n) = decide (m = n) := by
  have e1 := decChar_beq (m / 10 % 10) (n / 10 % 10) (by omega) (by omega)
  have e2 := decChar_beq (m % 10) (n % 10) (by omega) (by omega)
  simp only [pad2, List.cons_beq_cons, e1, e2]
  by_cases hq : m / 10 % 10 = n / 10 % 10 <;> by_cases hr : m % 10 = n % 10 <;>
    simp [hq, hr] <;> omega

/-- Equal-width two-digit renderings order like the numbers. -/
theorem pad2_lt (m n : Nat) (hm : m < 100) (hn : n < 100) :
    strLt (pad2 m) (pad2 n) = decide (m < n) := by
  have e1 := decChar_beq (m / 10 % 10) (n / 10 % 10) (by omega) (by omega)
  have l1 := decChar_lt (m / 10 % 10) (n / 10 % 10) (by omega) (by omega)
  have e2 := decChar_beq (m % 10) (n % 10) (by omega) (by omega)
  have l2 := decChar_lt (m % 10) (n % 10) (by omega) (by omega)
  simp only [pad2, strLt, e1, e2]
  by_cases hq : m / 10 % 10 = n / 10 % 10 <;> by_cases hr : m % 10 = n % 10 <;>
    simp [hq, hr, l1, l2] <;> omega

/-- Equal-width four-digit renderings decide equality like the numbers. -/
theorem pad4_beq (m n : Nat) (hm : m < 10000) (hn : n < 10000) :
    (pad4 m == pad4 n) = decide (m = n) := by
  have e1 := decChar_beq (m / 1000 % 10) (n / 1000 % 10) (by omega) (by omega)
  have e2 := decChar_beq (m / 100 % 10) (n / 100 % 10) (by omega) (by omega)
  have e3 := decChar_beq (m / 10 % 10) (n / 10 % 10) (by omega) (by omega)
  have e4 := decChar_beq (m % 10) (n % 10) (by omega) (by omega)
  simp only [pad4, List.cons_beq_cons, e1, e2, e3, e4]
  have hnil : (([] : Str) == []) = true := rfl
  simp only [hnil, Bool.and_true, ← Bool.decide_and]
  rw [decide_eq_decide]
  omega

/-- Equal-width four-digit renderings order like the numbers. -/
theorem pad4_lt (m n : Nat) (hm : m < 10000) (hn : n < 10000) :
    strLt (pad4 m) (pad4 n) = decide (m < n) := by
  have e1 := decChar_beq (m / 1000 % 10) (n / 1000 % 10) (by omega) (by omega)
  have e2 := decChar_beq (m / 100 % 10) (n / 100 % 10) (by omega) (by omega)
  have e3 := decChar_beq (m / 10 % 10) (n / 10 % 10) (by omega) (by omega)
  have e4 := decChar_beq (m % 10) (n % 10) (by omega) (by omega)
  have l1 := decChar_lt (m / 1000 % 10) (n / 1000 % 10) (by omega) (by omega)
  have l2 := decChar_lt (m / 100 % 10) (n / 100 % 10) (by omega) (by omega)
  have l3 := decChar_lt (m / 10 % 10) (n / 10 % 10) (by omega) (by omega)
  have l4 := decChar_lt (m % 10) (n % 10) (by omega) (by omega)
  simp only [pad4, strLt, e1, e2, e3, e4]
  split_ifs <;> simp_all [l1, l2, l3, l4] <;> omega

/-- Equal heads fall through. -/
theorem strLt_cons_same (ch : Char) (a b : Str) :
    strLt (ch :: a) (ch :: b) = strLt a b := by
  simp [strLt]

/-- A smaller head decides the comparison. -/
theorem strLt_cons_of_lt {c1 c2 : Char} (h : c1 < c2) (x y : Str) :
    strLt (c1 :: x) (c2 :: y) = true := by
  have hne : (c1 == c2) = false := beq_eq_false_iff_ne.mpr (ne_of_lt h)
  simp [strLt, hne, h]

/-- One rendered segment followed by the same separator. -/
theorem strLt_seg (x y : Str) (hlen : x.length = y.length) (ch : Char) (a b : Str) :
    strLt (x ++ ch :: a) (y ++ ch :: b) = (strLt x y || (x == y && strLt a b)) := by
  rw [strLt_append_same_len x y (ch :: a) (ch :: b) hlen, strLt_cons_same]

/-- One rendered segment followed by an ordered pair of separators: if
the segments tie, the separators decide. -/
theorem strLt_seg_lt (x y : Str) (hlen : x.length = y.length) (c1 c2 : Char) (h : c1 < c2)
    (a b : Str) : strLt (x ++ c1 :: a) (y ++ c2 :: b) = (strLt x y || x == y) := by
  rw [strLt_append_same_len x y (c1 :: a) (c2 :: b) hlen, strLt_cons_of_lt h, Bool.and_true]

/-- The comparison the sweep's DELETE performs is a calendar-DATE
comparison: the stored SQLite string compares below the ISO cutoff
string exactly when the record's (year, month, day) is lexicographically
at or before the cutoff's — the time of day never matters, because on
equal dates the separators `' ' < 'T'` decide. -/
theorem sqlite_lt_iso (t c : DateTime)
    (hty : t.year < 10000) (hcy : c.year < 10000)
    (htm : t.month < 100) (hcm : c.month < 100)
    (htd : t.day < 100) (hcd : c.day < 100) :
    strLt (sqliteTimestamp t) (isoTimestamp c) =
      decide (t.year < c.year ∨ (t.year = c.year ∧
        (t.month < c.month ∨ (t.month = c.month ∧ t.day ≤ c.day)))) := by
  have hy := pad4_lt t.year c.year hty hcy
  have hye := pad4_beq t.year c.year hty hcy
  have hm := pad2_lt t.month c.month htm hcm
  have hme := pad2_beq t.month c.month htm hcm
  have hd := pad2_lt t.day c.day htd hcd
  have hde := pad2_beq t.day c.day htd hcd
  rw [sqliteTimestamp, isoTimestamp,
    strLt_seg _ _ (by rfl) '-' _ _,
    strLt_seg _ _ (by rfl) '-' _ _,
    strLt_seg_lt _ _ (by rfl) ' ' 'T' (by decide) _ _,
    hy, hye, hm, hme, hd, hde]
  simp only [← Bool.decide_and, ← Bool.decide_or]
  rw [decide_eq_decide]
  omega

/-- C8 counterexample: with the default 7-day window and now =
2026-10-11T12:00:00Z, the cutoff instant is 2026-10-04T12:00:00Z. A
record processed at 2026-10-04 18:00:00 UTC — 6 days and 18 hours old,
chronologically AFTER the cutoff and so strictly within the retention
window — is nevertheless deleted by the sweep: the stored string
"2026-10-04 18:00:00" compares below the bound cutoff string
"2026-10-04T12:00:00.000Z" at the separator byte. -/
theorem cleanup_deletes_record_within_window :
    chronLt ⟨2026, 10, 4, 12, 0, 0, 0⟩ ⟨2026, 10, 4, 18, 0, 0, 0⟩ ∧
    cleanupOldNotifications
      [⟨str "n1", str "mention", str "u1", ⟨2026, 10, 4, 18, 0, 0, 0⟩⟩]
      ⟨2026, 10, 4, 12, 0, 0, 0⟩ = [] := by
  constructor
  · decide
  · decide

/-- C8 (amended): the sweep keeps the surviving records unchanged and in
order, and deletes exactly the records whose stored `CURRENT_TIMESTAMP`
string compares below the ISO cutoff string; by `sqlite_lt_iso` that is
exactly the records whose UTC calendar date is at or before the cutoff's
calendar date. Hence every record older than the window is deleted, but
so is every record of the cutoff's own calendar day — including records
up to a day newer than the window (the counterexample) — while records
of a later calendar day are kept. -/
theorem cleanupOldNotifications_by_calendar_day :
    (∀ (tbl : List NotificationRecord) (cutoffDate : DateTime),
      (cleanupOldNotifications tbl cutoffDate).Sublist tbl) ∧
    (∀ (tbl : List NotificationRecord) (cutoffDate : DateTime) (r : NotificationRecord),
      r ∈ tbl →
      (r ∈ cleanupOldNotifications tbl cutoffDate ↔
        strLt (sqliteTimestamp r.processedAt) (isoTimestamp cutoffDate) = false)) ∧
    (∀ (t c : DateTime), t.year < 10000 → c.year < 10000 → t.month < 100 →
      c.month < 100 → t.day < 100 → c.day < 100 →
      (strLt (sqliteTimestamp t) (isoTimestamp c) = true ↔
        (t.year < c.year ∨ (t.year = c.year ∧
          (t.month < c.month ∨ (t.month = c.month ∧ t.day ≤ c.day)))))) := by
  refine ⟨fun tbl cutoffDate => List.filter_sublist tbl,
    fun tbl cutoffDate r hr => ?_, fun t c h1 h2 h3 h4 h5 h6 => ?_⟩
  · simp [cleanupOldNotifications, List.mem_filter, hr]
  · rw [sqlite_lt_iso t c h1 h2 h3 h4 h5 h6, decide_eq_true_eq]

/-- Witness for C8 at concrete instants: a record of the following
calendar day survives the sweep, and the day-granularity characterization
holds at the counterexample's instants. -/
theorem cleanupOldNotifications_by_calendar_day_witness :
    (cleanupOldNotifications
        [⟨str "n2", str "reply", str "u2", ⟨2026, 10, 5, 1, 0, 0, 0⟩⟩]
        ⟨2026, 10, 4, 12, 0, 0, 0⟩).Sublist
      [⟨str "n2", str "reply", str "u2", ⟨2026, 10, 5, 1, 0, 0, 0⟩⟩] ∧
    (strLt (sqliteTimestamp ⟨2026, 10, 4, 18, 0, 0, 0⟩)
        (isoTimestamp ⟨2026, 10, 4, 12, 0, 0, 0⟩) = true ↔
      ((2026 : Nat) < 2026 ∨ ((2026 : Nat) = 2026 ∧
        ((10 : Nat) < 10 ∨ ((10 : Nat) = 10 ∧ (4 : Nat) ≤ 4))))) := by
  obtain ⟨h1, _, h3⟩ := cleanupOldNotifications_by_calendar_day
  exact ⟨h1 _ _, h3 ⟨2026, 10, 4, 18, 0, 0, 0⟩ ⟨2026, 10, 4, 12, 0, 0, 0⟩
    (by decide) (by decide) (by decide) (by decide) (by decide) (by decide)⟩

/-! ### Theorems: rate limiting (C2) -/

/-- C2, behaviour at the failing input: a fresh non-Plus user calling once
a minute makes calls 1 through 15 allowed and receives `limitReached` on
the 16th; but the reported reset timestamp is the stored window start
(time 0), which lies strictly in the PAST of the 16th call (time
`15 * 60000`), not in the future as the claim states. The remaining
conjuncts check the parts of the claim the code does satisfy: Plus users
bypass the check with no state change, and once the window has elapsed
the next call resets the counter to 1 at the new time and is allowed. -/
theorem checkMessageLimit_sixteenth_resetAt_in_past :
    (runLimitCalls none ((List.range 16).map (fun k => (k : Int) * 60000))).1 =
      List.replicate 15 .allowed ++ [.limitReached 0] ∧
    (0 : Int) < 15 * 60000 ∧
    (∀ (row? : Option LimitRow) (now : Int), checkMessageLimit row? now true = (.allowed, row?)) ∧
    checkMessageLimit (some ⟨15, 0⟩) (msPerHour + 1) false =
      (.allowed, some ⟨1, msPerHour + 1⟩) ∧
    checkMessageLimit (some ⟨15, 0⟩) (msPerHour + 1) false ≠ (.limitReached 0, some ⟨15, 0⟩) := by
  refine ⟨by decide, by decide, fun row? now => rfl, by decide, by decide⟩

/-- Within the window a count below 15 is allowed and incremented, the
window start unchanged. -/
theorem checkMessageLimit_increment (row : LimitRow) (now : Int)
    (hin : ¬ row.resetTime < now - msPerHour) (hlt : row.messageCount < 15) :
    checkMessageLimit (some row) now false =
      (.allowed, some ⟨row.messageCount + 1, row.resetTime⟩) := by
  simp [checkMessageLimit, hin, hlt]

/-- Within the window a count at 15 or more is blocked; the reported
reset timestamp is the stored window start and the row is unchanged. -/
theorem checkMessageLimit_blocked (row : LimitRow) (now : Int)
    (hin : ¬ row.resetTime < now - msPerHour) (hge : ¬ row.messageCount < 15) :
    checkMessageLimit (some row) now false = (.limitReached row.resetTime, some row) := by
  simp [checkMessageLimit, hin, hge]

/-! ### Theorems: reconnect cap (C9) -/

/-- A `close` event in explicit-field form. -/
theorem onClose_eq (maxA : Nat) (c : Bool) (a sc : Nat) :
    onClose maxA ⟨c, a, sc⟩ =
      if a ≥ maxA then ⟨false, a, sc⟩ else ⟨false, a + 1, sc + 1⟩ := by
  simp only [onClose, attemptReconnect]

/-- The reconnect logic never touches the `isConnected` flag. -/
theorem attemptReconnect_isConnected (maxA : Nat) (s : WSState) :
    (attemptReconnect maxA s).isConnected = s.isConnected := by
  unfold attemptReconnect; split <;> rfl

/-- After at least one `close` event the state is disconnected. -/
theorem runCloses_isConnected (maxA : Nat) :
    ∀ (n : Nat) (s : WSState), 1 ≤ n → (runCloses maxA n s).isConnected = false := by
  intro n
  induction n with
  | zero => omega
  | succ m ih =>
    intro s _
    cases m with
    | zero => simpa [runCloses, onClose] using attemptReconnect_isConnected maxA _
    | succ k => exact ih _ (by omega)

/-- Closed form for the attempt counter under consecutive failures. -/
theorem runCloses_attempts (maxA : Nat) :
    ∀ (n : Nat) (s : WSState), s.reconnectAttempts ≤ maxA →
      (runCloses maxA n s).reconnectAttempts = min (s.reconnectAttempts + n) maxA := by
  intro n
  induction n with
  | zero => intro s h; simp only [runCloses]; omega
  | succ m ih =>
    intro s h
    rcases s with ⟨c, a, sc⟩
    rw [runCloses, onClose_eq]
    by_cases hmax : a ≥ maxA
    · rw [if_pos hmax, ih ⟨false, a, sc⟩ (by simpa using h)]
      simp only []
      omega
    · rw [if_neg hmax, ih ⟨false, a + 1, sc + 1⟩ (by simp; omega)]
      simp only []
      omega

/-- Closed form for the number of scheduled reconnects under consecutive
failures. -/
theorem runCloses_scheduled (maxA : Nat) :
    ∀ (n : Nat) (s : WSState), s.reconnectAttempts ≤ maxA →
      (runCloses maxA n s).scheduledReconnects =
        s.scheduledReconnects + (min (s.reconnectAttempts + n) maxA - s.reconnectAttempts) := by
  intro n
  induction n with
  | zero => intro s h; simp only [runCloses]; omega
  | succ m ih =>
    intro s h
    rcases s with ⟨c, a, sc⟩
    rw [runCloses, onClose_eq]
    by_cases hmax : a ≥ maxA
    · rw [if_pos hmax, ih ⟨false, a, sc⟩ (by simpa using h)]
      simp only []
      omega
    · rw [if_neg hmax, ih ⟨false, a + 1, sc + 1⟩ (by simp; omega)]
      simp only []
      omega

/-- C9: starting from the constructor state, `n` consecutive connection
failures schedule exactly `min n maxReconnectAttempts` reconnects and
drive the attempt counter to `min n maxReconnectAttempts`; once the
counter has reached the maximum the state is terminally disconnected
(`close` events change nothing further and the connection stays down); a
reconnect is scheduled by `attemptReconnect` exactly when the counter is
below the maximum; and a successful `open` resets the counter to 0. -/
theorem reconnect_cap (maxA n : Nat) :
    (runCloses maxA n initialWSState).scheduledReconnects = min n maxA ∧
    (runCloses maxA n initialWSState).reconnectAttempts = min n maxA ∧
    (maxA ≤ n →
      onClose maxA (runCloses maxA n initialWSState) = runCloses maxA n initialWSState ∧
      (runCloses maxA n initialWSState).isConnected = false) ∧
    (∀ t : WSState, maxA ≤ t.reconnectAttempts → attemptReconnect maxA t = t) ∧
    (∀ t : WSState, t.reconnectAttempts < maxA →
      (attemptReconnect maxA t).scheduledReconnects = t.scheduledReconnects + 1 ∧
      (attemptReconnect maxA t).reconnectAttempts = t.reconnectAttempts + 1) ∧
    (∀ t : WSState, (onOpen t).reconnectAttempts = 0) := by
  have hA := runCloses_attempts maxA n initialWSState (by simp [initialWSState])
  have hS := runCloses_scheduled maxA n initialWSState (by simp [initialWSState])
  have hA0 : (runCloses maxA n initialWSState).reconnectAttempts = min n maxA := by
    rw [hA]; simp [initialWSState]
  have hS0 : (runCloses maxA n initialWSState).scheduledReconnects = min n maxA := by
    rw [hS]; simp [initialWSState]
  refine ⟨hS0, hA0, fun hn => ?_, fun t ht => ?_, fun t ht => ?_, fun t => rfl⟩
  · have hcon : (runCloses maxA n initialWSState).isConnected = false := by
      cases n with
      | zero => rfl
      | succ m => exact runCloses_isConnected maxA _ initialWSState (by omega)
    have hatt : (runCloses maxA n initialWSState).reconnectAttempts = maxA := by
      rw [hA0]; omega
    refine ⟨?_, hcon⟩
    rcases hst : runCloses maxA n initialWSState with ⟨c, a, sc⟩
    rw [hst] at hcon hatt
    simp only at hcon hatt
    subst hcon hatt
    rw [onClose_eq, if_pos (by omega)]
  · simp [attemptReconnect, ht]
  · simp [attemptReconnect, Nat.not_le.mpr ht]

/-- Witness for C9 at `maxReconnectAttempts = 3` and five failures: three
reconnects are scheduled, the counter sticks at 3, and the state is a
fixed point of further `close` events. -/
theorem reconnect_cap_witness :
    (runCloses 3 5 initialWSState).scheduledReconnects = min 5 3 ∧
    onClose 3 (runCloses 3 5 initialWSState) = runCloses 3 5 initialWSState := by
  obtain ⟨h1, _, h3, _⟩ := reconnect_cap 3 5
  exact ⟨h1, (h3 (by omega)).1⟩

/-! ### Theorems: bounded processed-DM-id set (C10) -/

/-- Adding an id grows the set by at most one element. -/
theorem addProcessedId_length_le (st : List MsgId) (i : MsgId) :
    (addProcessedId st i).length ≤ st.length + 1 := by
  unfold addProcessedId
  split <;> simp

/-- Pruning bounds the set by 1000 whenever its input is at most 1001
ids (the largest size one insertion can reach). -/
theorem pruneIds_length_le (ids : List MsgId) (h : ids.length ≤ 1001) :
    (pruneIds ids).length ≤ 1000 := by
  unfold pruneIds
  split
  · rw [List.length_drop]
    omega
  · rename_i hsmall
    omega

/-- One `handleDirectMessage` call keeps the dedup set within 1000 ids. -/
theorem handleDirectMessage_length_le (botUserId : Str) (st : List MsgId)
    (senderId : Str) (msgId : MsgId) (h : st.length ≤ 1000) :
    ((handleDirectMessage botUserId st senderId msgId).1).length ≤ 1000 := by
  unfold handleDirectMessage
  split
  · exact h
  · split
    · exact h
    · exact pruneIds_length_le _
        (le_trans (addProcessedId_length_le st msgId) (by omega))

/-- C10: (a) along any trace of inbound DMs the processed-id set stays at
1000 ids or fewer; (b) an id absent from the set — in particular one that
the pruning step removed — is handed to `processMessage` again; (c)
concretely, after 1001 distinct DMs the 1002nd insertion prunes the set
to the 500 newest ids, dropping id 0, and a redelivery of id 0 is then
processed a second time. -/
theorem processedMessageIds_bounded (botUserId : Str) :
    (∀ msgs : List (Str × MsgId), (runDMs botUserId msgs).length ≤ 1000) ∧
    (∀ (st : List MsgId) (senderId : Str) (msgId : MsgId),
      (senderId == botUserId) = false → st.contains msgId = false →
      (handleDirectMessage botUserId st senderId msgId).2 = true) ∧
    ((List.range 1001).contains 0 = true ∧
      ((handleDirectMessage (str "bot") (List.range 1001) (str "alice") 1001).1).length = 500 ∧
      ((handleDirectMessage (str "bot") (List.range 1001) (str "alice") 1001).1).contains 0
        = false ∧
      (handleDirectMessage (str "bot")
        ((handleDirectMessage (str "bot") (List.range 1001) (str "alice") 1001).1)
        (str "alice") 0).2 = true) := by
  refine ⟨fun msgs => ?_, fun st senderId msgId hown hdup => ?_, by decide, by decide,
    by decide, by decide⟩
  · have key : ∀ (l : List (Str × MsgId)) (st : List MsgId), st.length ≤ 1000 →
        (l.foldl (fun st m => (handleDirectMessage botUserId st m.1 m.2).1) st).length ≤ 1000 := by
      intro l
      induction l with
      | nil => intro st h; simpa using h
      | cons m rest ih =>
        intro st h
        exact ih _ (handleDirectMessage_length_le botUserId st m.1 m.2 h)
    simpa [runDMs] using key msgs [] (by simp)
  · have hmem : msgId ∉ st := by simpa using hdup
    simp [handleDirectMessage, hown, hmem]

/-- Witness for C10: the empty trace, and a fresh id on an empty set is
processed. -/
theorem processedMessageIds_bounded_witness :
    (runDMs (str "bot") []).length ≤ 1000 ∧
    (handleDirectMessage (str "bot") [] (str "alice") 42).2 = true := by
  obtain ⟨h1, h2, _⟩ := processedMessageIds_bounded (str "bot")
  exact ⟨h1 [], h2 [] (str "alice") 42 (by decide) (by decide)⟩

/-! ### Theorems: relevance ranking (C5) -/

/-- The coffee memory overlaps the example message on 1 of its 2 words. -/
theorem relevance_coffee :
    calculateRelevance (str "loves coffee") msgCoffee = 1 / 2 := by
  have h1 : (splitWs (jsToLower (str "loves coffee"))).countP
      (fun w => wordMatches (splitWs (jsToLower msgCoffee)) w) = 1 := by decide
  have h2 : (splitWs (jsToLower (str "loves coffee"))).length = 2 := by decide
  simp only [calculateRelevance, h1, h2]
  norm_num

/-- The Paris memory overlaps the example message on none of its words. -/
theorem relevance_paris :
    calculateRelevance (str "lives in Paris") msgCoffee = 0 := by
  have h1 : (splitWs (jsToLower (str "lives in Paris"))).countP
      (fun w => wordMatches (splitWs (jsToLower msgCoffee)) w) = 0 := by decide
  simp only [calculateRelevance, h1]
  norm_num

/-- Both tie-break memories score exactly 1 against the message. -/
theorem relevance_tie :
    relevanceScore msgAlpha memAlphaBeta = 1 ∧ relevanceScore msgAlpha memAlpha = 1 := by
  have ha : (splitWs (jsToLower (str "alpha beta"))).countP
      (fun w => wordMatches (splitWs (jsToLower msgAlpha)) w) = 1 := by decide
  have ha2 : (splitWs (jsToLower (str "alpha beta"))).length = 2 := by decide
  have hb : (splitWs (jsToLower (str "alpha"))).countP
      (fun w => wordMatches (splitWs (jsToLower msgAlpha)) w) = 1 := by decide
  have hb2 : (splitWs (jsToLower (str "alpha"))).length = 1 := by decide
  constructor
  · show calculateRelevance (str "alpha beta") msgAlpha * ((2 : Nat) : ℚ) = 1
    simp only [calculateRelevance, ha, ha2]
    norm_num
  · show calculateRelevance (str "alpha") msgAlpha * ((1 : Nat) : ℚ) = 1
    simp only [calculateRelevance, hb, hb2]
    norm_num

/-- C5 counterexample: two memories whose relevance scores tie (both 1)
while the second is strictly more recent. The claimed recency tie-break
would rank `memAlpha` (newer) first; the code keeps the retrieval order
(importance first) and ranks `memAlphaBeta` first. -/
theorem getRelevantMemories_not_recency_tiebreak :
    relevanceScore msgAlpha memAlphaBeta = relevanceScore msgAlpha memAlpha ∧
    memAlphaBeta.updatedAt < memAlpha.updatedAt ∧
    getRelevantMemories [memAlphaBeta, memAlpha] msgAlpha 10 =
      [memAlphaBeta, memAlpha] ∧
    getRelevantMemories [memAlphaBeta, memAlpha] msgAlpha 10 ≠
      [memAlpha, memAlphaBeta] := by
  obtain ⟨h1, h2⟩ := relevance_tie
  have himp : byImportanceRecency memAlphaBeta memAlpha := by
    left; decide
  have hscore : byScoreDesc msgAlpha memAlphaBeta memAlpha := by
    show relevanceScore msgAlpha memAlpha ≤ relevanceScore msgAlpha memAlphaBeta
    rw [h1, h2]
  have hout : getRelevantMemories [memAlphaBeta, memAlpha] msgAlpha 10 =
      [memAlphaBeta, memAlpha] := by
    simp only [getRelevantMemories, getUserMemories, List.insertionSort,
      List.orderedInsert, if_pos himp, if_pos hscore]
    rfl
  refine ⟨h1.trans h2.symm, by decide, hout, ?_⟩
  rw [hout]
  intro hcontra
  have : memAlphaBeta = memAlpha := by
    simpa using congrArg (fun l => l.headD memAlpha) hcontra
  exact absurd this (by decide)

/-- C5 (amended): with a non-empty current text the returned list is
sorted by descending `relevance_score` (= textOverlap × importance), and
score ties keep the retrieval order — importance descending then recency
— rather than recency alone: any pair in retrieval order whose scores
already satisfy the comparator stays in that order in the ranked output.
With empty current text the result falls back to the importance/recency
order. On the worked example the coffee memory (score 9/2) ranks above
the Paris memory (score 0). -/
theorem getRelevantMemories_ranking :
    (∀ (tbl : List StoredMemory) (msg : Str) (limit : Nat), msg ≠ [] →
      (getRelevantMemories tbl msg limit).Sorted (byScoreDesc msg)) ∧
    (∀ (tbl : List StoredMemory) (msg : Str) (limit : Nat) (a b : StoredMemory),
      msg ≠ [] → 100 ≤ limit →
      [a, b].Sublist (getUserMemories tbl 100) →
      relevanceScore msg b ≤ relevanceScore msg a →
      [a, b].Sublist (getRelevantMemories tbl msg limit)) ∧
    (∀ (tbl : List StoredMemory) (limit : Nat),
      (getRelevantMemories tbl [] limit).Sorted byImportanceRecency) ∧
    getRelevantMemories [memCoffee, memParis] msgCoffee 10 = [memCoffee, memParis] ∧
    relevanceScore msgCoffee memCoffee = 9 / 2 ∧
    relevanceScore msgCoffee memParis = 0 := by
  have hCoffeeScore : relevanceScore msgCoffee memCoffee = 9 / 2 := by
    show calculateRelevance (str "loves coffee") msgCoffee * ((9 : Nat) : ℚ) = 9 / 2
    rw [relevance_coffee]; norm_num
  have hParisScore : relevanceScore msgCoffee memParis = 0 := by
    show calculateRelevance (str "lives in Paris") msgCoffee * ((5 : Nat) : ℚ) = 0
    rw [relevance_paris]; norm_num
  have hEmptyIff : ∀ s : Str, s.isEmpty = true ↔ s = [] := by
    intro s; cases s <;> simp [List.isEmpty]
  refine ⟨fun tbl msg limit hmsg => ?_, fun tbl msg limit a b hmsg hlim hsub hle => ?_,
    fun tbl limit => ?_, ?_, hCoffeeScore, hParisScore⟩
  · unfold getRelevantMemories
    split
    · exact List.sorted_nil
    · split
      · rename_i hempty
        exact absurd ((hEmptyIff msg).mp hempty) hmsg
      · exact ((List.sorted_insertionSort (byScoreDesc msg) _).sublist
          (List.take_sublist _ _))
  · have hne : (getUserMemories tbl 100).isEmpty = false := by
      cases hu : getUserMemories tbl 100 with
      | nil => rw [hu] at hsub; simp at hsub
      | cons x xs => simp [List.isEmpty]
    have hmsgne : msg.isEmpty = false := by
      cases msg with
      | nil => exact absurd rfl hmsg
      | cons c cs => simp [List.isEmpty]
    have hpair : [a, b].Sublist
        (List.insertionSort (byScoreDesc msg) (getUserMemories tbl 100)) :=
      List.pair_sublist_insertionSort hle hsub
    have hlen : (List.insertionSort (byScoreDesc msg) (getUserMemories tbl 100)).length
        ≤ limit := by
      rw [List.length_insertionSort]
      calc (getUserMemories tbl 100).length ≤ 100 := by
            unfold getUserMemories
            rw [List.length_take]
            omega
        _ ≤ limit := hlim
    unfold getRelevantMemories
    rw [hne, hmsgne]
    simpa [List.take_of_length_le hlen] using hpair
  · unfold getRelevantMemories
    split
    · exact List.sorted_nil
    · split
      · exact (List.sorted_insertionSort byImportanceRecency tbl).sublist
          ((List.take_sublist _ _).trans (List.take_sublist _ _))
      · rename_i hfalse
        exact absurd rfl hfalse
  · have himp : byImportanceRecency memCoffee memParis := by
      left; decide
    have hscore : byScoreDesc msgCoffee memCoffee memParis := by
      show relevanceScore msgCoffee memParis ≤ relevanceScore msgCoffee memCoffee
      rw [hParisScore, hCoffeeScore]; norm_num
    simp only [getRelevantMemories, getUserMemories, List.insertionSort,
      List.orderedInsert, if_pos himp, if_pos hscore]
    rfl

/-- Witness for C5 at the worked example: the ranked list is score-sorted
and equals [coffee, paris]. -/
theorem getRelevantMemories_ranking_witness :
    (getRelevantMemories [memCoffee, memParis] msgCoffee 10).Sorted (byScoreDesc msgCoffee) ∧
    getRelevantMemories [memCoffee, memParis] msgCoffee 10 = [memCoffee, memParis] := by
  obtain ⟨h1, _, _, h4, _⟩ := getRelevantMemories_ranking
  exact ⟨h1 [memCoffee, memParis] msgCoffee 10 (by decide), h4⟩

/-! ### Theorems: bounded agent loop (C3) -/

/-- C3: for any completion and tool oracles, the loop makes at most two
completion requests; the tool calls executed are exactly those of the
first response (each once, in order, one result per call); when the first
response carries no tool calls its text is the reply after a single
request; when it does carry tool calls, the assistant tool-call message
and all tool results are appended and exactly one more request is made,
whose response text is the reply — any tool calls in that second response
are never executed, since the executed list equals the first response's
calls whatever the second response contains. -/
theorem generateAgentResponse_one_batch (complete : List ChatMessage → AiMessage)
    (exec : ToolCall → Bool × Str) (systemPrompt messageText : Str)
    (context : List ChatMessage) :
    let firstReq := systemMsg systemPrompt :: context ++ [userMsg messageText]
    let secondReq := systemMsg systemPrompt :: context ++ [userMsg messageText] ++
      [⟨.assistant, (complete firstReq).content, (complete firstReq).toolCalls, none⟩] ++
      (executeToolCalls exec (complete firstReq).toolCalls).map
        (fun r => ⟨.tool, r.payload, [], some r.toolCallId⟩)
    let run := generateAgentResponse complete exec systemPrompt messageText context
    run.executedToolCalls = (complete firstReq).toolCalls ∧
    run.completionRequests.length ≤ 2 ∧
    run.executedToolCalls.map (fun tc => tc.callId) =
      (executeToolCalls exec (complete firstReq).toolCalls).map (fun r => r.toolCallId) ∧
    ((complete firstReq).toolCalls = [] →
      run.completionRequests = [firstReq] ∧ run.reply = (complete firstReq).content) ∧
    ((complete firstReq).toolCalls ≠ [] →
      run.completionRequests = [firstReq, secondReq] ∧
      run.reply = (complete secondReq).content) := by
  intro firstReq secondReq run
  simp only [run, secondReq, firstReq, generateAgentResponse, executeToolCalls,
    List.cons_append, List.append_assoc]
  by_cases h :
      (complete (systemMsg systemPrompt :: (context ++ [userMsg messageText]))).toolCalls = []
  · simp [h]
  · have hne :
        (complete (systemMsg systemPrompt ::
          (context ++ [userMsg messageText]))).toolCalls.isEmpty = false := by
      rcases htc :
          (complete (systemMsg systemPrompt ::
            (context ++ [userMsg messageText]))).toolCalls with
        _ | ⟨x, xs⟩
      · exact absurd htc h
      · rfl
    simp [h, hne]

/-- Witness for C3: a completion oracle whose first response requests one
tool call and whose second response requests another; exactly the first
call is executed and the second response's text is the reply. -/
theorem generateAgentResponse_one_batch_witness :
    (generateAgentResponse
      (fun msgs =>
        if msgs.length ≤ 2 then ⟨str "first", [⟨str "c1", str "follow", str "a"⟩]⟩
        else ⟨str "final", [⟨str "c2", str "block", str "b"⟩]⟩)
      (fun _ => (true, str "ok")) (str "sys") (str "hi") []).executedToolCalls =
        [⟨str "c1", str "follow", str "a"⟩] ∧
    (generateAgentResponse
      (fun msgs =>
        if msgs.length ≤ 2 then ⟨str "first", [⟨str "c1", str "follow", str "a"⟩]⟩
        else ⟨str "final", [⟨str "c2", str "block", str "b"⟩]⟩)
      (fun _ => (true, str "ok")) (str "sys") (str "hi") []).reply = str "final" ∧
    (generateAgentResponse
      (fun msgs =>
        if msgs.length ≤ 2 then ⟨str "first", [⟨str "c1", str "follow", str "a"⟩]⟩
        else ⟨str "final", [⟨str "c2", str "block", str "b"⟩]⟩)
      (fun _ => (true, str "ok")) (str "sys") (str "hi") []).completionRequests.length ≤ 2 := by
  obtain ⟨h1, h2, _, _, h5⟩ := generateAgentResponse_one_batch
    (fun msgs =>
      if msgs.length ≤ 2 then ⟨str "first", [⟨str "c1", str "follow", str "a"⟩]⟩
      else ⟨str "final", [⟨str "c2", str "block", str "b"⟩]⟩)
    (fun _ => (true, str "ok")) (str "sys") (str "hi") []
  refine ⟨?_, ?_, h2⟩
  · rw [h1]; rfl
  · rw [(h5 (by decide)).2]; rfl

/-! ### Theorems: at-most-once processing (C1) -/

/-- The dedup primitives do work when invoked: once a mark for an id has
completed, a check for that id observes true. -/
theorem isProcessed_after_mark (tbl : List NotificationRecord)
    (notificationId ty u : Str) (now : DateTime) :
    isNotificationProcessed
      (markNotificationAsProcessed tbl notificationId ty u now) notificationId = true := by
  unfold markNotificationAsProcessed isNotificationProcessed
  split
  · rename_i h; exact h
  · simp [List.any_append]

/-- C1, the code evaluated at the failing input: the same mention
notification (note id "note1") delivered twice makes the reply-producing
path run twice — two completion invocations and two sent replies — and
the persistent deduplicator is never consulted or written (the
`processed_notifications` table stays empty), because `processMessage`
contains no dedup step and `isNotificationProcessed` /
`markNotificationAsProcessed` have no call site in the source. -/
theorem duplicate_mention_double_reply :
    (handleMention plainEnv (str "ada")
        (handleMention plainEnv (str "ada") initialBotState mentionNote 0)
        mentionNote 60000).sentReplies =
      [.agentReply (str "hi there"), .agentReply (str "hi there")] ∧
    (handleMention plainEnv (str "ada")
        (handleMention plainEnv (str "ada") initialBotState mentionNote 0)
        mentionNote 60000).completionCalls = 2 ∧
    (handleMention plainEnv (str "ada")
        (handleMention plainEnv (str "ada") initialBotState mentionNote 0)
        mentionNote 60000).notifications = [] ∧
    isNotificationProcessed
      (handleMention plainEnv (str "ada")
        (handleMention plainEnv (str "ada") initialBotState mentionNote 0)
        mentionNote 60000).notifications mentionNote.id = false := by
  decide

/-! ### Theorems: command short-circuit (C4) -/

/-- C4 counterexample: on the input "!cc", when the history DELETE fails
(`clearContext` rejects), `handleSpecialCommands` returns false and the
pipeline falls through to normal processing: the completion service IS
invoked, the stored history is NOT deleted, and the reply is the agent
response, not the fixed context-cleared message. -/
theorem cc_with_failed_delete_reaches_completion :
    (processMessage { plainEnv with clearOk := false }
        { initialBotState with messages := [⟨str "userA", str "user", str "old"⟩] }
        ⟨str "dm1", str "userA", str "!cc", none⟩ (str "!cc") 0).completionCalls = 1 ∧
    (⟨str "userA", str "user", str "old"⟩ : MessageRow) ∈
      (processMessage { plainEnv with clearOk := false }
        { initialBotState with messages := [⟨str "userA", str "user", str "old"⟩] }
        ⟨str "dm1", str "userA", str "!cc", none⟩ (str "!cc") 0).messages ∧
    SentReply.contextCleared ∉
      (processMessage { plainEnv with clearOk := false }
        { initialBotState with messages := [⟨str "userA", str "user", str "old"⟩] }
        ⟨str "dm1", str "userA", str "!cc", none⟩ (str "!cc") 0).sentReplies := by
  decide

/-- C4 (amended): whenever the stripped text matches the
`!cc`/`!clearcontext` regex, exactly one of three paths runs. When both
the history DELETE and the send of the fixed context-cleared reply
succeed, the pipeline terminates in the command branch: the completion
service is never invoked, the user's stored history is deleted, the
fixed reply is the only new effect, and the rest of the state is
untouched. When the DELETE rejects, `handleSpecialCommands` returns
false with nothing changed, and the message falls through to normal
(completion) processing. When the reply send rejects after a successful
DELETE, `handleSpecialCommands` likewise returns false and the message
falls through — but with the history already cleared and no reply
recorded. -/
theorem cc_shortcircuit (env : Env) (st : BotState) (note : Note) (text : Str) (now : Int)
    (hcc : ccCommandMatches (jsToLower (trim text)) = true) :
    (env.clearOk = true → env.sendOk = true →
      processMessage env st note text now =
        { st with messages := clearContext st.messages note.userId,
                  sentReplies := st.sentReplies ++ [.contextCleared] }) ∧
    (env.clearOk = false →
      handleSpecialCommands env st text note now = (false, st)) ∧
    (env.clearOk = true → env.sendOk = false →
      handleSpecialCommands env st text note now =
        (false, { st with messages := clearContext st.messages note.userId })) := by
  refine ⟨fun hok hsend => ?_, fun hfail => ?_, fun hok hsend => ?_⟩
  · simp [processMessage, handleSpecialCommands, hcc, hok, hsend]
  · simp [handleSpecialCommands, hcc, hfail]
  · simp [handleSpecialCommands, hcc, hok, hsend]

/-- Witness for C4 at the concrete input "!cc" with a one-row history and
a working store: the row is deleted, the fixed reply is sent, and no
completion call is made. -/
theorem cc_shortcircuit_witness :
    processMessage plainEnv ⟨[⟨str "userA", str "user", str "old"⟩], [], [], [], [], 0⟩
        ⟨str "dm1", str "userA", str "!cc", none⟩ (str "!cc") 0 =
      ⟨[], [], [], [], [SentReply.contextCleared], 0⟩ := by
  have h := cc_shortcircuit plainEnv
    ⟨[⟨str "userA", str "user", str "old"⟩], [], [], [], [], 0⟩
    ⟨str "dm1", str "userA", str "!cc", none⟩ (str "!cc") 0 (by decide)
  exact (h.1 rfl rfl).trans (by decide)

end Ada
